import Mathlib

/-!
Verification development for the SubredditMediaDownloader repository
(`src/main.py`, `src/utils.py`).  Each Python function relevant to the
checked properties is shallowly embedded as an executable Lean definition;
network responses, the filesystem and the external transcoding process are
passed in explicitly as parameters, and effects (requests, sleeps, log
lines) are recorded as explicit event traces.
-/

namespace SMD

/-- Raw byte buffers are modelled as lists of naturals. -/
abbrev Bytes := List Nat

/-! ## `utils.py`: the `retry_connection` decorator

`retry_connection` wraps a coroutine; it loops `for tries in range(1, 6)`,
returning the value on success; on a connection error or timeout it logs
and retries (when `tries < 5`) or logs an error and returns `None` (at
`tries == 5`); on any other exception it logs and returns `None`
immediately.  The wrapped operation is modelled as a function from the
attempt number (1-based) to an outcome. -/

/-- Outcome of one invocation of the wrapped operation:
a returned value, a transient error (`ClientError`, `ConnectionError`,
`TimeoutError`), or any other exception. -/
inductive AttemptOutcome (α : Type) where
  | success (v : α)
  | transient
  | fatal
deriving DecidableEq

/-- Observable events of one run of the `retry_connection` wrapper.
The vocabulary includes a `sleep` event so that the (absence of a) delay
between attempts is expressible; the source logs `"Retrying in 10
seconds..."` but contains no sleep call, so the embedding never emits
`sleep`. -/
inductive RetryEvent where
  | invoke (t : Nat)
  | logRetryMsg (t : Nat)
  | logSkip
  | logFatal
  | sleep (seconds : Nat)
deriving DecidableEq

/-- The retry loop body, from `utils.py` lines 40-60: `fuel` is the number
of loop iterations still available and `t` the current value of `tries`. -/
def retryAux {α : Type} (op : Nat → AttemptOutcome α) :
    Nat → Nat → Option α × List RetryEvent
  | 0, _ => (none, [])
  | fuel + 1, t =>
    match op t with
    | .success v => (some v, [.invoke t])
    | .fatal => (none, [.invoke t, .logFatal])
    | .transient =>
      if t < 5 then
        let r := retryAux op fuel (t + 1)
        (r.1, .invoke t :: .logRetryMsg t :: r.2)
      else
        (none, [.invoke t, .logSkip])

/-- `retry_connection(func)`: run the loop `for tries in range(1, 6)`. -/
def retry_connection {α : Type} (op : Nat → AttemptOutcome α) :
    Option α × List RetryEvent :=
  retryAux op 5 1

/-- Whether an event is an invocation of the wrapped operation. -/
def isInvoke : RetryEvent → Bool
  | .invoke _ => true
  | _ => false

/-- Whether an event is a sleep. -/
def isSleepEv : RetryEvent → Bool
  | .sleep _ => true
  | _ => false

/-- Number of invocations of the wrapped operation recorded in a trace. -/
def invocations (tr : List RetryEvent) : Nat :=
  (tr.filter isInvoke).length

/-- C3: if every attempt fails transiently, the wrapped operation is invoked
exactly 5 times and the wrapper returns no result (without raising); if the
first attempt fails with a non-transient exception, it is invoked exactly
once and the wrapper returns no result; success at attempt `k` (after only
transient failures) returns that value immediately after exactly `k`
invocations. -/
theorem retry_policy_attempts {α : Type} (op : Nat → AttemptOutcome α) :
    ((∀ t, op t = .transient) →
      (retry_connection op).1 = none ∧ invocations (retry_connection op).2 = 5) ∧
    (op 1 = .fatal →
      (retry_connection op).1 = none ∧ invocations (retry_connection op).2 = 1) ∧
    (∀ k v, 1 ≤ k → k ≤ 5 → (∀ t, 1 ≤ t → t < k → op t = .transient) →
      op k = .success v →
      (retry_connection op).1 = some v ∧ invocations (retry_connection op).2 = k) := by
  refine ⟨?_, ?_, ?_⟩
  · intro h
    simp [retry_connection, retryAux, h, invocations, isInvoke]
  · intro h
    simp [retry_connection, retryAux, h, invocations, isInvoke]
  · intro k v hk1 hk5 htr hs
    interval_cases k <;>
      simp_all [retry_connection, retryAux, invocations, isInvoke]

/-- Witness for C3 at concrete operations: an always-transient operation, a
fatally-failing operation, and one that succeeds at the second attempt. -/
theorem retry_policy_attempts_witness :
    ((retry_connection (fun _ => (AttemptOutcome.transient : AttemptOutcome Nat))).1 = none ∧
      invocations (retry_connection
        (fun _ => (AttemptOutcome.transient : AttemptOutcome Nat))).2 = 5) ∧
    ((retry_connection (fun _ => (AttemptOutcome.fatal : AttemptOutcome Nat))).1 = none ∧
      invocations (retry_connection
        (fun _ => (AttemptOutcome.fatal : AttemptOutcome Nat))).2 = 1) ∧
    ((retry_connection (fun t => if t = 2 then AttemptOutcome.success 7
        else (AttemptOutcome.transient : AttemptOutcome Nat))).1 = some 7 ∧
      invocations (retry_connection (fun t => if t = 2 then AttemptOutcome.success 7
        else (AttemptOutcome.transient : AttemptOutcome Nat))).2 = 2) := by
  refine ⟨(retry_policy_attempts _).1 (fun t => rfl),
          ((retry_policy_attempts _).2.1 rfl),
          ((retry_policy_attempts _).2.2 2 7 (by decide) (by decide)
            (fun t h1 h2 => by interval_cases t <;> rfl) (by decide))⟩

/-- C4 (code evidence): no run of the `retry_connection` wrapper ever emits
a sleep event — the source logs "Retrying in 10 seconds..." between
transient attempts but performs no sleep call, so there is no 10-second
delay between consecutive attempts. -/
theorem retry_no_sleep {α : Type} (op : Nat → AttemptOutcome α) :
    ((retry_connection op).2.filter isSleepEv) = [] := by
  have h : ∀ fuel t, ((retryAux op fuel t).2.filter isSleepEv) = [] := by
    intro fuel
    induction fuel with
    | zero => intro t; simp [retryAux]
    | succ n ih =>
      intro t
      cases hop : op t <;> simp only [retryAux, hop]
      · simp [isSleepEv]
      · by_cases ht : t < 5 <;> simp [ht, isSleepEv, ih]
      · simp [isSleepEv]
  exact h 5 1

/-! ## `main.py`: `parse_image` (gallery posts, lines 263-277)

A gallery post's `media_metadata` is a dict of per-image descriptors; the
code iterates `enumerate(images.values(), start=1)`, skips entries whose
`status` is not `"completed"`, and stores
`images_dict[id_ + f'_{img_num}'] = url` with `'amp;'` stripped from the
served URL `image['s']['u']`. -/

/-- One entry of a gallery post's `media_metadata`: its processing status
and the served URL `['s']['u']`. -/
structure GalleryImage where
  status : String
  u : String
deriving DecidableEq

/-- `url.replace('amp;', '')`: remove every non-overlapping occurrence of
`"amp;"`, scanning left to right. -/
def removeAmp : List Char → List Char
  | 'a' :: 'm' :: 'p' :: ';' :: rest => removeAmp rest
  | c :: rest => c :: removeAmp rest
  | [] => []

/-- The loop of `parse_image`, with `n` the current value of the 1-based
`enumerate` counter (which advances on skipped entries too). -/
def parse_image_from (id_ : String) : List GalleryImage → Nat → List (String × String)
  | [], _ => []
  | img :: rest, n =>
    if img.status ≠ "completed" then parse_image_from id_ rest (n + 1)
    else (id_ ++ "_" ++ toString n, (removeAmp img.u.data).asString) ::
      parse_image_from id_ rest (n + 1)

/-- `parse_image(id_, images)`: the resulting identifier → URL association
list, in insertion order. -/
def parse_image (id_ : String) (images : List GalleryImage) : List (String × String) :=
  parse_image_from id_ images 1

/-- C1 counterexample: a gallery whose first entry is not `"completed"` and
whose second is.  Exactly `K = 1` item is yielded, but its identifier is
`"p_2"` — the `enumerate` counter advances on the skipped entry — whereas
the claim requires identifiers `_1 .. _K`, i.e. `"p_1"`. -/
theorem parse_image_counterexample :
    (parse_image "p" [⟨"failed", "u"⟩, ⟨"completed", "v"⟩]).length = 1 ∧
    (parse_image "p" [⟨"failed", "u"⟩, ⟨"completed", "v"⟩]).map Prod.fst = ["p_2"] ∧
    (parse_image "p" [⟨"failed", "u"⟩, ⟨"completed", "v"⟩]).map Prod.fst ≠ ["p_1"] := by
  refine ⟨rfl, rfl, ?_⟩
  decide

/-- C1 amended: for every gallery post, `parse_image` yields exactly one
item per `"completed"` entry (so exactly `K` items), in encounter order,
each with URL equal to the entry's served URL with every literal `"amp;"`
removed, and with identifier the post identifier suffixed with `_<n>` where
`n` is the entry's 1-based position in the full metadata sequence (skipped
entries still advance the counter). -/
theorem parse_image_spec (id_ : String) (images : List GalleryImage) :
    parse_image id_ images =
      (images.enumFrom 1).filterMap (fun p =>
        if p.2.status = "completed"
        then some (id_ ++ "_" ++ toString p.1, (removeAmp p.2.u.data).asString)
        else none) ∧
    (parse_image id_ images).length =
      (images.filter (fun img => img.status == "completed")).length := by
  have key : ∀ (l : List GalleryImage) (n : Nat),
      parse_image_from id_ l n =
        (l.enumFrom n).filterMap (fun p =>
          if p.2.status = "completed"
          then some (id_ ++ "_" ++ toString p.1, (removeAmp p.2.u.data).asString)
          else none) := by
    intro l
    induction l with
    | nil => intro n; rfl
    | cons img rest ih =>
      intro n
      by_cases h : img.status = "completed" <;>
        simp [parse_image_from, List.enumFrom, h, ih]
  have len : ∀ (l : List GalleryImage) (n : Nat),
      (parse_image_from id_ l n).length =
        (l.filter (fun img => img.status == "completed")).length := by
    intro l
    induction l with
    | nil => intro n; rfl
    | cons img rest ih =>
      intro n
      by_cases h : img.status = "completed" <;>
        simp [parse_image_from, h, ih]
  exact ⟨key images 1, len images 1⟩

/-! ## `main.py`: `download_elements` (lines 60-79)

For each `(name, link)` entry the code runs
`re.search(r'\.(jpe?g|gif?v|png|mp4)', link)` and appends `'.' +
match.group(1)` to the name; when there is no match it appends `'.mp4'` if
`'v.redd.it' in link`, and otherwise logs the link as unrecognized and
schedules nothing.  Note the pattern `gif?v` makes the letter `f` optional
(matching `giv` and `gifv`), not the letter `v`. -/

/-- One alternation attempt of `(jpe?g|gif?v|png|mp4)` at the position
right after a matched literal `'.'`; alternatives are tried in the regex's
order and the optional letters greedily.  Returns the captured group. -/
def extAlt (l : List Char) : Option (List Char) :=
  if l.take 4 = ['j', 'p', 'e', 'g'] then some ['j', 'p', 'e', 'g']
  else if l.take 3 = ['j', 'p', 'g'] then some ['j', 'p', 'g']
  else if l.take 4 = ['g', 'i', 'f', 'v'] then some ['g', 'i', 'f', 'v']
  else if l.take 3 = ['g', 'i', 'v'] then some ['g', 'i', 'v']
  else if l.take 3 = ['p', 'n', 'g'] then some ['p', 'n', 'g']
  else if l.take 3 = ['m', 'p', '4'] then some ['m', 'p', '4']
  else none

/-- `re.search(r'\.(jpe?g|gif?v|png|mp4)', link)`: scan left to right for a
`'.'` whose following text matches one alternative; return the captured
group of the leftmost match. -/
def find_ext : List Char → Option (List Char)
  | [] => none
  | '.' :: rest =>
    match extAlt rest with
    | some g => some g
    | none => find_ext rest
  | _ :: rest => find_ext rest

/-- `'v.redd.it' in link`: substring test. -/
def hasSub (pat : List Char) : List Char → Bool
  | [] => pat.isEmpty
  | c :: tl => pat.isPrefixOf (c :: tl) || hasSub pat tl

/-- The per-entry body of the `download_elements` loop: the scheduled
download file name derived from an `(identifier, URL)` entry, or `none`
when the entry is logged as unrecognized and skipped. -/
def element_name (name link : String) : Option String :=
  match find_ext link.data with
  | some ext => some (name ++ "." ++ ext.asString)
  | none =>
    if hasSub "v.redd.it".data link.data then some (name ++ ".mp4")
    else none

/-- C2 (code evidence): a direct `.gif` URL — which the comment in
`download_elements` says should receive a `gif` extension, and which
`get_elements_info` collects as an element — is skipped as unrecognized:
the pattern `gif?v` matches `giv`/`gifv` but not `gif`, so no download is
scheduled for it. -/
theorem element_name_gif_skipped :
    element_name "abc" "https://i.imgur.com/abc.gif" = none ∧
    element_name "abc" "https://i.imgur.com/abc.jpg" = some "abc.jpg" := by
  constructor
  · rfl
  · rfl

/-! ## Filesystem, storage routing, and the downloader

The filesystem is a partial map from path strings to byte contents;
`session.get` responses, the external transcoding process and its
success are passed in as parameters. -/

/-- The filesystem: a partial map from paths to contents. -/
def FS : Type := String → Option Bytes

/-- Writing a file (creating or overwriting). -/
def fsWrite (fs : FS) (p : String) (b : Bytes) : FS :=
  fun q => if q = p then some b else fs q

/-- `pathlib.Path(p).unlink()`. -/
def fsRemove (fs : FS) (p : String) : FS :=
  fun q => if q = p then none else fs q

/-- The configuration fields consumed by the storage router. -/
structure Config where
  download_folder : String
  subreddit : String

/-- `get_file_dst_folder(name)` (lines 245-261): pick the subfolder from
the name's ending and return `DOWNLOAD_FOLDER / SUBREDDIT / sub_folder`
(directory creation is not modelled). -/
def get_file_dst_folder (cfg : Config) (name : String) : String :=
  let sub_folder :=
    if name.endsWith "mp4" then "videos"
    else if name.endsWith "gif" || name.endsWith "gifv" then "gifs"
    else "images"
  cfg.download_folder ++ "/" ++ cfg.subreddit ++ "/" ++ sub_folder

/-- `write_to_disk(name, image)` (lines 236-243): write the bytes at
`dir_path / name`. -/
def write_to_disk (cfg : Config) (fs : FS) (name : String) (image : Bytes) : FS :=
  fsWrite fs (get_file_dst_folder cfg name ++ "/" ++ name) image

/-- The pattern `DASH_(\d{3,4})` tried at the start of `l`: `\d{3,4}` is
greedy, so four digits are preferred over three.  Returns the remainder
after the matched text. -/
def matchDASH (l : List Char) : Option (List Char) :=
  if l.take 5 = ['D', 'A', 'S', 'H', '_'] then
    if 3 ≤ (l.drop 5).length ∧ ((l.drop 5).take 3).all Char.isDigit then
      if 4 ≤ (l.drop 5).length ∧ ((l.drop 5).take 4).all Char.isDigit then
        some ((l.drop 5).drop 4)
      else some ((l.drop 5).drop 3)
    else none
  else none

/-- A successful `matchDASH` consumes at least one character. -/
theorem matchDASH_some_length {l r : List Char} (h : matchDASH l = some r) :
    r.length < l.length := by
  have h5 : l.take 5 = ['D', 'A', 'S', 'H', '_'] → 5 ≤ l.length := by
    intro ht
    have := congrArg List.length ht
    simp at this
    omega
  unfold matchDASH at h
  split_ifs at h with h1 h2 h3
  · cases h
    have := h5 h1
    simp
    omega
  · cases h
    have := h5 h1
    simp
    omega

/-- `re.sub(r'DASH_(\d{3,4})', 'DASH_audio', url)`: replace every
non-overlapping occurrence, scanning left to right. -/
def dash_audio_sub : List Char → List Char
  | [] => []
  | c :: tl =>
    match h : matchDASH (c :: tl) with
    | some rest => "DASH_audio".data ++ dash_audio_sub rest
    | none => c :: dash_audio_sub tl
termination_by l => l.length
decreasing_by
  · exact matchDASH_some_length h
  · simp

/-- Record of one `download_reddit_video` run: the resulting filesystem,
the companion audio URL fetched, and the arguments handed to the merge
step (`ffmpeg.output`): destination file name, and the contents of the two
temporary input files. -/
structure DRVResult where
  fs : FS
  audio_link : String
  merge_dst : String
  merge_video : Bytes
  merge_audio : Bytes

/-- `download_reddit_video(name, url, video_data)` (lines 198-234): fetch
the companion audio at the `DASH_audio`-substituted URL, write both
buffers to temporary files, run the external muxing process into the
routed destination (falling back to `write_to_disk` of the raw video
bytes when it fails), then delete both temporary files.  `net` gives the
bytes served at a URL, `mux` the external process's muxed output, and
`ffmpegOk` whether `stream.run` succeeds. -/
def download_reddit_video (cfg : Config) (net : String → Bytes)
    (mux : Bytes → Bytes → Bytes) (ffmpegOk : Bool)
    (name url : String) (video_data : Bytes) (fs : FS) : DRVResult :=
  let audio_link : String := (dash_audio_sub url.data).asString
  let audio_data := net audio_link
  let temp_video_file := name ++ "_temp.mp4"
  let temp_audio_file := name ++ "_audio_temp.mp4"
  let fs1 := fsWrite fs temp_video_file video_data
  let fs2 := fsWrite fs1 temp_audio_file audio_data
  let dir_path := get_file_dst_folder cfg name
  let dst_file := dir_path ++ "/" ++ name
  let fs3 :=
    if ffmpegOk then fsWrite fs2 dst_file (mux video_data audio_data)
    else write_to_disk cfg fs2 name video_data
  let fs4 := fsRemove fs3 temp_video_file
  let fs5 := fsRemove fs4 temp_audio_file
  { fs := fs5, audio_link := audio_link, merge_dst := dst_file,
    merge_video := video_data, merge_audio := audio_data }

/-- Number of `'/'` characters in a string. -/
def slashCount (s : String) : Nat := s.data.count '/'

theorem slashCount_append (a b : String) :
    slashCount (a ++ b) = slashCount a + slashCount b := by
  simp [slashCount, String.data_append]

/-- The routed destination path differs from any `name ++ suffix` with a
slash-free suffix: the destination has strictly more `'/'` characters. -/
theorem dst_ne_name_suffix (cfg : Config) (name suffix : String)
    (hsuf : slashCount suffix = 0) :
    get_file_dst_folder cfg name ++ "/" ++ name ≠ name ++ suffix := by
  intro h
  have hc := congrArg slashCount h
  rw [slashCount_append, slashCount_append, slashCount_append] at hc
  have hs : slashCount "/" = 1 := by decide
  unfold get_file_dst_folder at hc
  rw [slashCount_append, slashCount_append, slashCount_append] at hc
  omega

/-- The two temporary file names differ (their lengths differ). -/
theorem temp_files_ne (name : String) :
    name ++ "_temp.mp4" ≠ name ++ "_audio_temp.mp4" := by
  intro h
  have := congrArg String.length h
  rw [String.length_append, String.length_append] at this
  simp at this
  exact absurd this (by decide)

/-- C5: for every merge invocation, after `download_reddit_video` returns,
the routed destination holds the external process's muxed output when the
process succeeds and the raw video bytes when it fails, and neither
temporary file exists in either outcome. -/
theorem download_reddit_video_files (cfg : Config) (net : String → Bytes)
    (mux : Bytes → Bytes → Bytes) (ffmpegOk : Bool) (name url : String)
    (video_data : Bytes) (fs : FS) :
    (download_reddit_video cfg net mux ffmpegOk name url video_data fs).fs
        (get_file_dst_folder cfg name ++ "/" ++ name) =
      some (if ffmpegOk then
          mux video_data
            (net (download_reddit_video cfg net mux ffmpegOk name url video_data fs).audio_link)
        else video_data) ∧
    (download_reddit_video cfg net mux ffmpegOk name url video_data fs).fs
        (name ++ "_temp.mp4") = none ∧
    (download_reddit_video cfg net mux ffmpegOk name url video_data fs).fs
        (name ++ "_audio_temp.mp4") = none := by
  have hv := dst_ne_name_suffix cfg name "_temp.mp4" (by decide)
  have ha := dst_ne_name_suffix cfg name "_audio_temp.mp4" (by decide)
  have hva := temp_files_ne name
  refine ⟨?_, ?_, ?_⟩
  · cases ffmpegOk <;>
      simp [download_reddit_video, fsRemove, fsWrite, write_to_disk, hv, ha]
  · cases ffmpegOk <;>
      simp [download_reddit_video, fsRemove, fsWrite, write_to_disk, hva]
  · cases ffmpegOk <;>
      simp [download_reddit_video, fsRemove, fsWrite, write_to_disk]

/-- An HTTP response: status code and body bytes. -/
structure Response where
  status : Nat
  body : Bytes

/-- `download(name, url)` (lines 181-196): on status 404 or 403 return
without touching the filesystem; otherwise read the body and either merge
a platform video or write the bytes directly. -/
def download (cfg : Config) (net : String → Response)
    (mux : Bytes → Bytes → Bytes) (ffmpegOk : Bool)
    (name url : String) (fs : FS) : FS :=
  if (net url).status = 404 ∨ (net url).status = 403 then fs
  else if "https://v.redd.it".data.isPrefixOf url.data then
    (download_reddit_video cfg (fun u => (net u).body) mux ffmpegOk name url
      (net url).body fs).fs
  else write_to_disk cfg fs name (net url).body

/-- C6: a `download(name, url)` call whose GET response has status 404 or
403 returns normally, leaving the filesystem unchanged. -/
theorem download_gone (cfg : Config) (net : String → Response)
    (mux : Bytes → Bytes → Bytes) (ffmpegOk : Bool) (name url : String)
    (fs : FS) (h : (net url).status = 404 ∨ (net url).status = 403) :
    download cfg net mux ffmpegOk name url fs = fs := by
  simp [download, h]

/-- Witness for C6: a concrete 403 response leaves a concrete filesystem
unchanged. -/
theorem download_gone_witness :
    download ⟨"down", "sub"⟩ (fun _ => ⟨403, []⟩) (fun v _ => v) true
      "q1_1" "https://i.redd.it/a.jpg" (fun _ => none) = (fun _ => none) :=
  download_gone ⟨"down", "sub"⟩ (fun _ => ⟨403, []⟩) (fun v _ => v) true
    "q1_1" "https://i.redd.it/a.jpg" (fun _ => none) (Or.inr rfl)

/-! ## Characterization of the `DASH_audio` substitution (C9) -/

/-- Unfolding `dash_audio_sub` when the pattern does not match at the
head. -/
theorem dash_sub_cons_none {c : Char} {tl : List Char}
    (h : matchDASH (c :: tl) = none) :
    dash_audio_sub (c :: tl) = c :: dash_audio_sub tl := by
  rw [dash_audio_sub]
  split
  · rename_i r heq
    rw [h] at heq
    cases heq
  · rfl

/-- Unfolding `dash_audio_sub` when the pattern matches at the head. -/
theorem dash_sub_cons_some {c : Char} {tl rest : List Char}
    (h : matchDASH (c :: tl) = some rest) :
    dash_audio_sub (c :: tl) = "DASH_audio".data ++ dash_audio_sub rest := by
  rw [dash_audio_sub]
  split
  · rename_i r heq
    rw [h] at heq
    injection heq with heq
    rw [heq]
  · rename_i heq
    rw [h] at heq
    cases heq

/-- Scanning a segment inside which the pattern starts nowhere leaves the
segment untouched. -/
theorem dash_sub_append (a rest : List Char)
    (hA : ∀ i, i < a.length → matchDASH (List.drop i (a ++ rest)) = none) :
    dash_audio_sub (a ++ rest) = a ++ dash_audio_sub rest := by
  induction a with
  | nil => simp
  | cons c tl ih =>
    have h0 := hA 0 (by simp)
    rw [List.drop_zero, List.cons_append] at h0
    have ih' := ih (fun i hi => by
      have := hA (i + 1) (by simp; omega)
      rw [List.cons_append, List.drop_succ_cons] at this
      exact this)
    rw [List.cons_append, dash_sub_cons_none h0, ih']
    rfl

/-- Scanning text inside which the pattern starts nowhere is the
identity. -/
theorem dash_sub_id (b : List Char)
    (hB : ∀ i, i < b.length → matchDASH (List.drop i b) = none) :
    dash_audio_sub b = b := by
  have := dash_sub_append b [] (by simpa using hB)
  simpa [dash_audio_sub] using this

/-- `all` is preserved by `take`. -/
theorem all_take {p : Char → Bool} {l : List Char} (h : l.all p = true)
    (n : Nat) : (l.take n).all p = true := by
  rw [List.all_eq_true] at h ⊢
  exact fun x hx => h x (List.mem_of_mem_take hx)

/-- The pattern `DASH_(\d{3,4})` matches a well-formed resolution marker
`DASH_<digits>` (3 or 4 digits, not followed by a further digit) and
leaves exactly the text after the digits. -/
theorem matchDASH_marker (d b : List Char) (hd : d.all Char.isDigit = true)
    (hlen : d.length = 3 ∨ d.length = 4)
    (hb : ∀ c ∈ b.head?, c.isDigit = false) :
    matchDASH ("DASH_".data ++ (d ++ b)) = some b := by
  have h5len : ("DASH_".data : List Char).length = 5 := rfl
  have h5 : ("DASH_".data ++ (d ++ b)).take 5 = ['D', 'A', 'S', 'H', '_'] :=
    List.take_left' h5len
  have hdrop : ("DASH_".data ++ (d ++ b)).drop 5 = d ++ b :=
    List.drop_left' h5len
  unfold matchDASH
  rw [h5, hdrop]
  rcases hlen with h3 | h4
  · have htk3 : (d ++ b).take 3 = d := List.take_left' h3
    have hdp3 : (d ++ b).drop 3 = b := List.drop_left' h3
    have hcond1 : 3 ≤ (d ++ b).length ∧ ((d ++ b).take 3).all Char.isDigit := by
      constructor
      · simp [List.length_append]; omega
      · rw [htk3]; exact hd
    rw [if_pos rfl, if_pos hcond1]
    have hcond2 : ¬(4 ≤ (d ++ b).length ∧ ((d ++ b).take 4).all Char.isDigit) := by
      rintro ⟨hlen4, hall4⟩
      cases b with
      | nil => simp [List.length_append, h3] at hlen4
      | cons c b' =>
        have hc : c.isDigit = false := hb c rfl
        have htk4 : (d ++ (c :: b')).take 4 = d ++ [c] := by
          rw [List.take_append_eq_append_take]
          simp [h3]
        rw [htk4, List.all_append] at hall4
        simp [hc] at hall4
    rw [if_neg hcond2, hdp3]
  · have htk4 : (d ++ b).take 4 = d := List.take_left' h4
    have hdp4 : (d ++ b).drop 4 = b := List.drop_left' h4
    have hcond1 : 3 ≤ (d ++ b).length ∧ ((d ++ b).take 3).all Char.isDigit := by
      constructor
      · simp [List.length_append]; omega
      · rw [List.take_append_of_le_length (by omega)]
        exact all_take hd 3
    have hcond2 : 4 ≤ (d ++ b).length ∧ ((d ++ b).take 4).all Char.isDigit := by
      constructor
      · simp [List.length_append]; omega
      · rw [htk4]; exact hd
    rw [if_pos rfl, if_pos hcond1, if_pos hcond2, hdp4]

/-- C9: for a platform video URL of the form `a ++ "DASH_" ++ d ++ b` with
a single well-formed resolution marker (`d` is a run of 3 or 4 digits, the
pattern starts nowhere inside `a` or `b`), the companion audio URL fetched
by `download_reddit_video` is the same URL with the marker replaced by
`DASH_audio`, and the merge step receives the destination name, the video
bytes, and exactly the bytes served at that audio URL. -/
theorem download_reddit_video_audio (cfg : Config) (net : String → Bytes)
    (mux : Bytes → Bytes → Bytes) (ffmpegOk : Bool) (name : String)
    (a d b : List Char) (video_data : Bytes) (fs : FS)
    (hA : ∀ i, i < a.length →
      matchDASH (List.drop i (a ++ ("DASH_".data ++ (d ++ b)))) = none)
    (hd : d.all Char.isDigit = true) (hlen : d.length = 3 ∨ d.length = 4)
    (hb : ∀ c ∈ b.head?, c.isDigit = false)
    (hB : ∀ i, i < b.length → matchDASH (List.drop i b) = none) :
    (download_reddit_video cfg net mux ffmpegOk name
        ((a ++ ("DASH_".data ++ (d ++ b))).asString) video_data fs).audio_link =
      (a ++ ("DASH_audio".data ++ b)).asString ∧
    (download_reddit_video cfg net mux ffmpegOk name
        ((a ++ ("DASH_".data ++ (d ++ b))).asString) video_data fs).merge_dst =
      get_file_dst_folder cfg name ++ "/" ++ name ∧
    (download_reddit_video cfg net mux ffmpegOk name
        ((a ++ ("DASH_".data ++ (d ++ b))).asString) video_data fs).merge_video =
      video_data ∧
    (download_reddit_video cfg net mux ffmpegOk name
        ((a ++ ("DASH_".data ++ (d ++ b))).asString) video_data fs).merge_audio =
      net ((a ++ ("DASH_audio".data ++ b)).asString) := by
  have hsub : dash_audio_sub (a ++ ("DASH_".data ++ (d ++ b))) =
      a ++ ("DASH_audio".data ++ b) := by
    rw [dash_sub_append a _ hA]
    have hmark := matchDASH_marker d b hd hlen hb
    have hcons : dash_audio_sub ("DASH_".data ++ (d ++ b)) =
        "DASH_audio".data ++ dash_audio_sub b := by
      have : ("DASH_".data ++ (d ++ b) : List Char) =
          'D' :: ("ASH_".data ++ (d ++ b)) := rfl
      rw [this] at hmark ⊢
      exact dash_sub_cons_some hmark
    rw [hcons, dash_sub_id b hB]
  have hdata : ((a ++ ("DASH_".data ++ (d ++ b))).asString).data =
      a ++ ("DASH_".data ++ (d ++ b)) := rfl
  refine ⟨?_, rfl, rfl, ?_⟩
  · show (dash_audio_sub ((a ++ ("DASH_".data ++ (d ++ b))).asString).data).asString = _
    rw [hdata, hsub]
  · show net (dash_audio_sub ((a ++ ("DASH_".data ++ (d ++ b))).asString).data).asString = _
    rw [hdata, hsub]

/-- Witness for C9: the example URL from the source comments,
`https://v.redd.it/stx7a2b1ofr71/DASH_720.mp4?source=fallback`. -/
theorem download_reddit_video_audio_witness :
    (download_reddit_video ⟨"down", "sub"⟩ (fun _ => [5]) (fun v _ => v) true
        "stx7a2b1ofr71.mp4"
        (("https://v.redd.it/stx7a2b1ofr71/".data ++
          ("DASH_".data ++ ("720".data ++ ".mp4?source=fallback".data))).asString)
        [9] (fun _ => none)).audio_link =
      (("https://v.redd.it/stx7a2b1ofr71/".data ++
        ("DASH_audio".data ++ ".mp4?source=fallback".data)).asString) :=
  (download_reddit_video_audio ⟨"down", "sub"⟩ (fun _ => [5]) (fun v _ => v) true
    "stx7a2b1ofr71.mp4" "https://v.redd.it/stx7a2b1ofr71/".data "720".data
    ".mp4?source=fallback".data [9] (fun _ => none)
    (by decide) (by decide) (by decide) (by decide) (by decide)).1

/-! ## `main.py`: `parse_video` (lines 279-295) and
`download_video_with_json` (lines 297-346)

The permalink-`.json` request is re-issued recursively after a 5-minute
cooldown on every 429 response; the sequence of responses the host serves
to the successive requests is modelled as a stream `net : Nat → JsonResp`,
and the recursion is run with explicit fuel (the source recursion is
unbounded). -/

/-- A platform video descriptor (`reddit_video`). -/
structure RedditVideo where
  transcoding_status : String
  fallback_url : String
deriving DecidableEq

/-- What one GET of the permalink-`.json` link amounts to for the code:
a 429 status, a body that fails JSON decoding, a payload whose
`secure_media` is absent/null, a payload carrying a `reddit_video`
descriptor, or a payload shape raising `TypeError` while digging. -/
inductive JsonResp where
  | rateLimited
  | malformed
  | okNoMedia
  | okVideo (v : RedditVideo)
  | typeErr
deriving DecidableEq

/-- Events of the JSON fallback path: an HTTP request to a link, or a
sleep of a number of seconds (the source sleeps 1 second 5*60 times). -/
inductive VidEvent where
  | request (link : String)
  | sleep (seconds : Nat)
deriving DecidableEq

/-- `f'https://www.reddit.com{submission.permalink}.json'`. -/
def json_link (permalink : String) : String :=
  "https://www.reddit.com" ++ permalink ++ ".json"

/-- `download_video_with_json(submission)`: issue the GET (consuming the
head of the response stream); on 429, sleep 300 seconds and recurse on the
rest of the stream; otherwise return `''` for malformed bodies, absent
media, or non-`"completed"` transcoding status, `None` on a `TypeError`,
and the fallback URL for a `"completed"` descriptor. -/
def download_video_with_json (permalink : String) :
    (Nat → JsonResp) → Nat → Option String × List VidEvent
  | _, 0 => (none, [])
  | net, fuel + 1 =>
    match net 0 with
    | .rateLimited =>
      let r := download_video_with_json permalink (fun i => net (i + 1)) fuel
      (r.1, .request (json_link permalink) :: .sleep 300 :: r.2)
    | .malformed => (some "", [.request (json_link permalink)])
    | .okNoMedia => (some "", [.request (json_link permalink)])
    | .okVideo v =>
      (if v.transcoding_status ≠ "completed" then some ""
       else some v.fallback_url, [.request (json_link permalink)])
    | .typeErr => (none, [.request (json_link permalink)])

/-- `k` cooldown rounds: each is one request answered 429 followed by a
300-second sleep. -/
def cooldowns (link : String) : Nat → List VidEvent
  | 0 => []
  | k + 1 => .request link :: .sleep 300 :: cooldowns link k

/-- C8: when the first `k` responses to the permalink-`.json` request are
429 and the `(k+1)`-st is not, the event trace is exactly `k` rounds of
(identical request, 300-second sleep) followed by one more identical
request, for every `k`; and the outcome is exactly the outcome of running
the fallback on the stream with the 429s removed — the item is never
abandoned because of a 429. -/
theorem json_429_cooldown (permalink : String) (net : Nat → JsonResp)
    (k fuel : Nat) (hk : ∀ i, i < k → net i = .rateLimited)
    (hne : net k ≠ .rateLimited) (hfuel : k < fuel) :
    (download_video_with_json permalink net fuel).2 =
      cooldowns (json_link permalink) k ++ [VidEvent.request (json_link permalink)] ∧
    (download_video_with_json permalink net fuel).1 =
      (download_video_with_json permalink (fun i => net (k + i)) (fuel - k)).1 := by
  induction k generalizing net fuel with
  | zero =>
    cases fuel with
    | zero => omega
    | succ f =>
      have hnet : (fun i => net (0 + i)) = net := funext fun i => by
        rw [Nat.zero_add]
      rw [hnet, Nat.sub_zero]
      cases h0 : net 0 with
      | rateLimited => exact absurd h0 hne
      | malformed => simp [download_video_with_json, h0, cooldowns]
      | okNoMedia => simp [download_video_with_json, h0, cooldowns]
      | okVideo v => simp [download_video_with_json, h0, cooldowns]
      | typeErr => simp [download_video_with_json, h0, cooldowns]
  | succ k ih =>
    cases fuel with
    | zero => omega
    | succ f =>
      have h0 : net 0 = .rateLimited := hk 0 (by omega)
      have hk' : ∀ i, i < k → net (i + 1) = .rateLimited := fun i hi =>
        hk (i + 1) (by omega)
      have hne' : net (k + 1) ≠ .rateLimited := hne
      have ih' := ih (fun i => net (i + 1)) f hk' hne' (by omega)
      have hshift : (fun i => net (k + i + 1)) = (fun i => net (k + 1 + i)) :=
        funext fun i => by ring_nf
      constructor
      · simp only [download_video_with_json, h0, cooldowns]
        rw [ih'.1]
        rfl
      · simp only [download_video_with_json, h0]
        rw [ih'.2]
        simp only [Nat.succ_sub_succ]
        rw [hshift]

/-- Witness for C8 at `k = 1`: one 429 answer followed by a malformed
body; the trace is request, 300-second sleep, request. -/
theorem json_429_cooldown_witness :
    (download_video_with_json "/r/pics/comments/q1/x/"
        (fun i => if i = 0 then JsonResp.rateLimited else JsonResp.malformed) 2).2 =
      cooldowns (json_link "/r/pics/comments/q1/x/") 1 ++
        [VidEvent.request (json_link "/r/pics/comments/q1/x/")] ∧
    (download_video_with_json "/r/pics/comments/q1/x/"
        (fun i => if i = 0 then JsonResp.rateLimited else JsonResp.malformed) 2).1 =
      (download_video_with_json "/r/pics/comments/q1/x/"
        (fun i => if 1 + i = 0 then JsonResp.rateLimited else JsonResp.malformed) 1).1 :=
  json_429_cooldown "/r/pics/comments/q1/x/"
    (fun i => if i = 0 then JsonResp.rateLimited else JsonResp.malformed) 1 2
    (fun i hi => by interval_cases i <;> rfl) (by decide) (by decide)

/-- The first element of `crosspost_parent_list`, reduced to its
`['media']['reddit_video']`; `none` stands for a `media` of `None` (a
`TypeError` in the source). -/
abbrev CrossPost := Option RedditVideo

/-- A submission as consumed by `parse_video`: `crosspost_parent_list` is
`none` when the attribute is absent (`AttributeError` in the source),
`some none` when the attribute is present but `None`, and `some (some l)`
when it is a list. -/
structure Submission where
  crosspost_parent_list : Option (Option (List CrossPost))
  permalink : String

/-- Result of one Python coroutine run: a returned value (possibly
`None`), or a raised exception propagating to the `retry_connection`
wrapper (which turns it into `None` on the caller's side). -/
inductive PyResult (α : Type) where
  | ret (a : Option α)
  | raised
deriving DecidableEq

/-- `parse_video(submission)` (lines 279-295): consult the first
cross-post's video descriptor when cross-post lineage exists (`TypeError`
→ return `None`; `IndexError` on an empty list → re-raise), and fall back
to `download_video_with_json` when the attribute is absent. -/
def parse_video (sub : Submission) (net : Nat → JsonResp) (fuel : Nat) :
    PyResult String × List VidEvent :=
  match sub.crosspost_parent_list with
  | some none => (.ret none, [])
  | some (some []) => (.raised, [])
  | some (some (none :: _)) => (.ret none, [])
  | some (some (some v :: _)) =>
    if v.transcoding_status ≠ "completed" then (.ret none, [])
    else (.ret (some v.fallback_url), [])
  | none =>
    let r := download_video_with_json sub.permalink net fuel
    (.ret r.1, r.2)

/-- A non-empty URL out of the JSON fallback only comes from a
`"completed"` descriptor served by some response. -/
theorem json_only_completed (permalink : String) (net : Nat → JsonResp)
    (fuel : Nat) (u : String)
    (h : (download_video_with_json permalink net fuel).1 = some u)
    (hne : u ≠ "") :
    ∃ (v : RedditVideo) (i : Nat), net i = .okVideo v ∧
      v.transcoding_status = "completed" ∧ u = v.fallback_url := by
  induction fuel generalizing net with
  | zero => simp [download_video_with_json] at h
  | succ f ih =>
    cases h0 : net 0 with
    | rateLimited =>
      simp only [download_video_with_json, h0] at h
      obtain ⟨v, i, hv, hc, hu⟩ := ih (fun i => net (i + 1)) h
      exact ⟨v, i + 1, hv, hc, hu⟩
    | malformed =>
      simp only [download_video_with_json, h0] at h
      cases h
      exact absurd rfl hne
    | okNoMedia =>
      simp only [download_video_with_json, h0] at h
      cases h
      exact absurd rfl hne
    | okVideo v =>
      simp only [download_video_with_json, h0] at h
      by_cases hc : v.transcoding_status = "completed"
      · rw [if_neg (by simpa using hc)] at h
        cases h
        exact ⟨v, 0, h0, hc, rfl⟩
      · rw [if_pos (by simpa using hc)] at h
        cases h
        exact absurd rfl hne
    | typeErr =>
      simp [download_video_with_json, h0] at h

/-- C7: video resolution never yields an item whose transcoding status is
not `"completed"`: whenever `parse_video` returns a non-empty playback URL
(a yielded item), that URL is the fallback URL of a consulted descriptor —
the first cross-post's, or one served on the permalink-`.json` path —
whose transcoding status equals `"completed"`. -/
theorem parse_video_only_completed (sub : Submission) (net : Nat → JsonResp)
    (fuel : Nat) (u : String)
    (hy : (parse_video sub net fuel).1 = .ret (some u)) (hne : u ≠ "") :
    ∃ v : RedditVideo, v.transcoding_status = "completed" ∧
      u = v.fallback_url ∧
      ((∃ rest, sub.crosspost_parent_list = some (some (some v :: rest))) ∨
        ∃ i, net i = .okVideo v) := by
  match hcp : sub.crosspost_parent_list with
  | some none => simp [parse_video, hcp] at hy
  | some (some []) => simp [parse_video, hcp] at hy
  | some (some (none :: _)) => simp [parse_video, hcp] at hy
  | some (some (some v :: rest)) =>
    by_cases hc : v.transcoding_status = "completed"
    · simp only [parse_video, hcp, hc] at hy
      simp at hy
      exact ⟨v, hc, hy.symm, Or.inl ⟨rest, rfl⟩⟩
    · simp [parse_video, hcp, hc] at hy
  | none =>
    rw [parse_video] at hy
    rw [hcp] at hy
    simp only [PyResult.ret.injEq] at hy
    obtain ⟨v, i, hv, hc, hu⟩ := json_only_completed sub.permalink net fuel u hy hne
    exact ⟨v, hc, hu, Or.inr ⟨i, hv⟩⟩

/-- Witness for C7: a cross-posted submission with a `"completed"`
descriptor yields its fallback URL, and that URL indeed traces back to a
completed descriptor. -/
theorem parse_video_only_completed_witness :
    ∃ v : RedditVideo, v.transcoding_status = "completed" ∧
      ("https://v.redd.it/ok/DASH_720.mp4" : String) = v.fallback_url ∧
      (((∃ rest, (Submission.mk
          (some (some [some ⟨"completed", "https://v.redd.it/ok/DASH_720.mp4"⟩]))
          "/r/p/").crosspost_parent_list = some (some (some v :: rest))) ∨
        ∃ i : Nat, (fun _ : Nat => JsonResp.typeErr) i = .okVideo v)) :=
  parse_video_only_completed
    (Submission.mk
      (some (some [some ⟨"completed", "https://v.redd.it/ok/DASH_720.mp4"⟩]))
      "/r/p/")
    (fun _ => JsonResp.typeErr) 0 "https://v.redd.it/ok/DASH_720.mp4"
    (by decide) (by decide)

/-! ## `main.py`: `get_real_gif_link` (lines 166-179)

`re.findall(r'content="(.+mp4)', data)` scans for the literal
`content="`; at a hit, `.+mp4` greedily captures up to the last position
on the same line (`.` does not match a newline) where the text ends in
`mp4`, with at least one character before it; the function returns the
first captured group, or `''` when there is no match or the body is not
valid UTF-8. -/

/-- The characters of the literal `content="`. -/
def contentPat : List Char := ['c', 'o', 'n', 't', 'e', 'n', 't', '=', '"']

/-- The literal `content="` tried at the start of `l`: the remainder
after it on success. -/
def matchContent (l : List Char) : Option (List Char) :=
  if l.take 9 = ['c', 'o', 'n', 't', 'e', 'n', 't', '=', '"'] then some (l.drop 9)
  else none

/-- A successful `matchContent` consumes exactly 9 characters. -/
theorem matchContent_some_length {l r : List Char}
    (h : matchContent l = some r) : r.length + 9 = l.length := by
  unfold matchContent at h
  split_ifs at h with h1
  · cases h
    have := congrArg List.length h1
    simp at this
    simp
    omega

/-- `matchContent` succeeds right at a literal occurrence. -/
theorem matchContent_marker (rest : List Char) :
    matchContent (contentPat ++ rest) = some rest := by
  have h1 : (contentPat ++ rest).take 9 = contentPat := List.take_left' rfl
  have h2 : (contentPat ++ rest).drop 9 = rest := List.drop_left' rfl
  unfold matchContent
  rw [h1, h2]
  simp [contentPat]

/-- The portion of the text visible to `.` (which does not match a
newline): the current line. -/
def lineOf (l : List Char) : List Char := l.takeWhile (fun c => c != '\n')

/-- Whether a greedy `.+mp4` match over line `L` can end at offset `j`:
at least one captured character before the final `mp4`, which occupies
offsets `j-3`, `j-2`, `j-1` of `L`. -/
def mp4End (L : List Char) (j : Nat) : Bool :=
  decide (4 ≤ j) && ((L.drop (j - 3)).take 3 == ['m', 'p', '4'])

/-- The end offset of the greedy `.+mp4` match within a line, if any: the
largest offset at which the pattern can end. -/
def lastMp4End (L : List Char) : Option Nat :=
  List.find? (fun j => mp4End L j) (List.range (L.length + 1)).reverse

/-- `re.findall(r'content="(.+mp4)', data)`: the captured groups of the
non-overlapping matches, scanning left to right; after a match the scan
resumes at the match's end, after a failed position one character later. -/
def findAllContentMp4 : List Char → List (List Char)
  | [] => []
  | c :: tl =>
    match h : matchContent (c :: tl) with
    | some after =>
      match lastMp4End (lineOf after) with
      | some j => after.take j :: findAllContentMp4 (after.drop j)
      | none => findAllContentMp4 tl
    | none => findAllContentMp4 tl
termination_by l => l.length
decreasing_by
  · have h9 := matchContent_some_length h
    simp at h9 ⊢
    omega
  · simp
  · simp

/-- Whether the full pattern `content="(.+mp4)` matches starting exactly
at the head of `l`: the literal matches and its line admits a greedy
`.+mp4` completion.  A position where only the bare literal matches is
not a match of the pattern; the scan resumes one character later
there. -/
def fullMatchAt (l : List Char) : Bool :=
  match matchContent l with
  | some after => (lastMp4End (lineOf after)).isSome
  | none => false

/-- `get_real_gif_link(link)`: `body` is the fetched page decoded as
UTF-8 (`none` when decoding fails, in which case `''` is returned);
otherwise `match[0]` of the scan, or `''` when there is no match. -/
def get_real_gif_link (body : Option (List Char)) : String :=
  match body with
  | none => ""
  | some data =>
    match findAllContentMp4 data with
    | [] => ""
    | m0 :: _ => m0.asString

/-- Unfolding `findAllContentMp4` when the literal is absent at the
head. -/
theorem findAll_cons_none {c : Char} {tl : List Char}
    (h : matchContent (c :: tl) = none) :
    findAllContentMp4 (c :: tl) = findAllContentMp4 tl := by
  rw [findAllContentMp4]
  split
  · rename_i after heq
    rw [h] at heq
    cases heq
  · rfl

/-- Unfolding `findAllContentMp4` at a matched literal whose line admits a
greedy `.+mp4` match. -/
theorem findAll_cons_some {c : Char} {tl after : List Char} {j : Nat}
    (h : matchContent (c :: tl) = some after)
    (hj : lastMp4End (lineOf after) = some j) :
    findAllContentMp4 (c :: tl) =
      after.take j :: findAllContentMp4 (after.drop j) := by
  rw [findAllContentMp4]
  split
  · rename_i a heq
    rw [h] at heq
    injection heq with heq
    subst heq
    rw [hj]
  · rename_i heq
    rw [h] at heq
    cases heq

/-- Unfolding `findAllContentMp4` at a matched literal whose line admits
no greedy `.+mp4` completion: nothing is captured and the scan resumes
one character later. -/
theorem findAll_cons_nomp4 {c : Char} {tl after : List Char}
    (h : matchContent (c :: tl) = some after)
    (hj : lastMp4End (lineOf after) = none) :
    findAllContentMp4 (c :: tl) = findAllContentMp4 tl := by
  rw [findAllContentMp4]
  split
  · rename_i a heq
    rw [h] at heq
    injection heq with heq
    subst heq
    rw [hj]
  · rename_i heq
    rw [h] at heq

/-- A position where the full pattern does not match either fails the
literal, or matches the literal on a line with no `.+mp4` completion. -/
theorem fullMatchAt_false_cases {l : List Char} (h : fullMatchAt l = false) :
    matchContent l = none ∨
      ∃ after, matchContent l = some after ∧
        lastMp4End (lineOf after) = none := by
  cases hm : matchContent l with
  | none => exact Or.inl rfl
  | some after =>
    refine Or.inr ⟨after, rfl, ?_⟩
    cases hj : lastMp4End (lineOf after) with
    | none => rfl
    | some j =>
      have ht : fullMatchAt l = true := by
        simp [fullMatchAt, hm, hj]
      rw [ht] at h
      cases h

/-- Scanning a segment inside which the full pattern starts nowhere
(stray bare literals allowed) skips it entirely. -/
theorem findAll_append (a rest : List Char)
    (hA : ∀ i, i < a.length → fullMatchAt (List.drop i (a ++ rest)) = false) :
    findAllContentMp4 (a ++ rest) = findAllContentMp4 rest := by
  induction a with
  | nil => simp
  | cons c tl ih =>
    have h0 := hA 0 (by simp)
    rw [List.drop_zero, List.cons_append] at h0
    have hstep : findAllContentMp4 (c :: (tl ++ rest)) =
        findAllContentMp4 (tl ++ rest) := by
      rcases fullMatchAt_false_cases h0 with hm | ⟨after, hm, hj⟩
      · exact findAll_cons_none hm
      · exact findAll_cons_nomp4 hm hj
    rw [List.cons_append, hstep]
    exact ih (fun i hi => by
      have := hA (i + 1) (by simp; omega)
      rw [List.cons_append, List.drop_succ_cons] at this
      exact this)

/-- Scanning text inside which the full pattern starts nowhere (stray
bare literals allowed) finds nothing. -/
theorem findAll_nil (body : List Char)
    (h : ∀ i, i < body.length → fullMatchAt (List.drop i body) = false) :
    findAllContentMp4 body = [] := by
  have := findAll_append body [] (by simpa using h)
  simpa [findAllContentMp4] using this

/-- `find?` over a descending range returns the largest satisfying
value. -/
theorem find_rev_range (p : Nat → Bool) (n J : Nat) (hJ : J ≤ n)
    (hp : p J = true) (hab : ∀ j, J < j → j ≤ n → p j = false) :
    List.find? p (List.range (n + 1)).reverse = some J := by
  induction n with
  | zero =>
    have h0 : J = 0 := by omega
    subst h0
    simp [List.range_succ, hp]
  | succ n ih =>
    rw [List.range_succ, List.reverse_append]
    by_cases hJn : J = n + 1
    · subst hJn
      simp [hp]
    · have hfalse : p (n + 1) = false := hab (n + 1) (by omega) (by omega)
      simp only [List.reverse_cons, List.reverse_nil, List.nil_append,
        List.singleton_append, List.find?_cons, hfalse]
      exact ih (by omega) (fun j h1 h2 => hab j h1 (by omega))

/-- Lines pass unchanged through a newline-free segment. -/
theorem lineOf_append (u v : List Char) (hu : ∀ c ∈ u, (c != '\n') = true) :
    lineOf (u ++ v) = u ++ lineOf v := by
  unfold lineOf
  rw [List.takeWhile_append_of_pos hu]

/-- C10: for a `.gifv` page body that decodes as UTF-8 and decomposes as
`a ++ content=" ++ u ++ mp4 ++ b` — the first full `content="(.+mp4)`
match starting at position `a.length` (stray bare `content="` literals
with no `.+mp4` completion on their line may occur inside `a`), the
capture `u` non-empty and newline-free, and no greedy `.+mp4` end on the
marker's line beyond the marker's own `mp4` — `get_real_gif_link`
returns the URL captured from that first marker, `u ++ "mp4"`; a body in
which the full pattern starts nowhere (bare literals allowed) yields
`''`; and an undecodable body yields `''`. -/
theorem get_real_gif_link_spec (a u b : List Char)
    (hA : ∀ i, i < a.length →
      fullMatchAt (List.drop i
        (a ++ (contentPat ++ (u ++ (['m', 'p', '4'] ++ b))))) = false)
    (hu1 : 1 ≤ u.length) (hu2 : ∀ c ∈ u, (c != '\n') = true)
    (hlast : ∀ j, j < (lineOf (u ++ (['m', 'p', '4'] ++ b))).length + 1 →
      u.length + 3 < j → mp4End (lineOf (u ++ (['m', 'p', '4'] ++ b))) j = false) :
    get_real_gif_link (some (a ++ (contentPat ++ (u ++ (['m', 'p', '4'] ++ b))))) =
      (u ++ ['m', 'p', '4']).asString ∧
    (∀ body : List Char,
      (∀ i, i < body.length → fullMatchAt (List.drop i body) = false) →
      get_real_gif_link (some body) = "") ∧
    get_real_gif_link none = "" := by
  refine ⟨?_, ?_, rfl⟩
  · set after := u ++ (['m', 'p', '4'] ++ b) with hafter
    have hmp4line : ∀ c ∈ (['m', 'p', '4'] : List Char), (c != '\n') = true := by
      decide
    have hL : lineOf after = u ++ (['m', 'p', '4'] ++ lineOf b) := by
      rw [hafter, lineOf_append u _ hu2, lineOf_append _ _ hmp4line]
    have hLlen : (lineOf after).length = u.length + 3 + (lineOf b).length := by
      rw [hL]
      simp [List.length_append]
      omega
    have hphit : mp4End (lineOf after) (u.length + 3) = true := by
      unfold mp4End
      have hd : (lineOf after).drop (u.length + 3 - 3) =
          ['m', 'p', '4'] ++ lineOf b := by
        rw [hL]
        have : u.length + 3 - 3 = u.length := by omega
        rw [this]
        exact List.drop_left' rfl
      rw [hd]
      have ht : ((['m', 'p', '4'] ++ lineOf b : List Char)).take 3 =
          ['m', 'p', '4'] := List.take_left' rfl
      rw [ht]
      simp
      omega
    have hfind : lastMp4End (lineOf after) = some (u.length + 3) := by
      unfold lastMp4End
      exact find_rev_range _ (lineOf after).length (u.length + 3)
        (by omega) hphit
        (fun j h1 h2 => hlast j (by omega) h1)
    have htake : after.take (u.length + 3) = u ++ ['m', 'p', '4'] := by
      rw [hafter, ← List.append_assoc]
      exact List.take_left' (by simp)
    have hcons : findAllContentMp4 (contentPat ++ after) =
        after.take (u.length + 3) ::
          findAllContentMp4 (after.drop (u.length + 3)) := by
      have hm := matchContent_marker after
      have : (contentPat ++ after : List Char) =
          'c' :: (['o', 'n', 't', 'e', 'n', 't', '=', '"'] ++ after) := rfl
      rw [this] at hm ⊢
      exact findAll_cons_some hm hfind
    have hfa : findAllContentMp4 (a ++ (contentPat ++ after)) =
        (u ++ ['m', 'p', '4']) ::
          findAllContentMp4 (after.drop (u.length + 3)) := by
      rw [findAll_append a _ hA, hcons, htake]
    simp [get_real_gif_link, hfa]
  · intro body hb
    simp [get_real_gif_link, findAll_nil body hb]

/-- Witness for C10: a concrete imgur-style page body whose first line
carries a stray `content="website">` literal (no `mp4` on that line) and
whose second line carries the real marker; a markerless body that still
contains a bare `content="` literal; and an undecodable body. -/
theorem get_real_gif_link_spec_witness :
    get_real_gif_link (some ("<meta content=\"website\">\n<meta ".data ++
        (contentPat ++ ("https://i.imgur.com/x.".data ++
          (['m', 'p', '4'] ++ "\"><body></body></html>".data))))) =
      ("https://i.imgur.com/x.".data ++ ['m', 'p', '4']).asString ∧
    get_real_gif_link (some "<meta content=\"website\">\n<body></body>".data) = "" ∧
    get_real_gif_link none = "" := by
  have h := get_real_gif_link_spec "<meta content=\"website\">\n<meta ".data
    "https://i.imgur.com/x.".data "\"><body></body></html>".data
    (by decide) (by decide) (by decide) (by decide)
  exact ⟨h.1, h.2.1 "<meta content=\"website\">\n<body></body>".data (by decide), h.2.2⟩

end SMD
